import Mathlib

/-!
Verification development for the best-memory-ai memory-management core.

The Python source is shallowly embedded: pure functions become Lean
functions, stateful code becomes explicit state passing, machine floats
(importance scores, vector distances) are modelled as rationals, datetimes
as natural-number timestamps, and external capabilities (the tiktoken
tokenizer, the chroma vector index, the stdlib json parser) are passed in
as function parameters.
-/

namespace BestMemoryAI

/-- Chat message as stored by the short-term memory layer: a Python dict
with exactly the keys "role" and "content" (src/memory/short_term.py). -/
structure Msg where
  role : String
  content : String
deriving DecidableEq, Repr

/-- Embedding of utils/token_counter.count_messages_tokens.  The tiktoken
encoding is abstracted as a function enc from strings to token counts; the
function adds 3 tokens per message, encodes every dict value (role and
content; the messages built by this codebase never carry a "name" key),
and adds a final 3 tokens per request. -/
def count_messages_tokens (enc : String → Nat) (messages : List Msg) : Nat :=
  messages.foldl (fun acc m => acc + 3 + enc m.role + enc m.content) 0 + 3

/-- The per-iteration accept/stop loop of
ShortTermMemory.get_messages_with_token_limit (short_term.py lines
164-170): walk the reversed non-system messages; a message is prepended
(insert(0, msg)) while the running total stays within max_tokens; the
first over-budget message breaks the loop. -/
def budget_loop (enc : String → Nat) (max_tokens : Nat) :
    List Msg → List Msg → Nat → List Msg
  | [], result_messages, _ => result_messages
  | msg :: rest, result_messages, current_tokens =>
    if current_tokens + count_messages_tokens enc [msg] ≤ max_tokens then
      budget_loop enc max_tokens rest (msg :: result_messages)
        (current_tokens + count_messages_tokens enc [msg])
    else result_messages

/-- Initial accumulator of the truncation path (short_term.py lines
156-160): the system messages of the (possibly pre-filtered) history are
placed in the result unconditionally, with their batch token count, when
include_system_message is set and any exist; otherwise the walk starts
empty at zero. -/
def truncation_start (enc : String → Nat) (all_messages : List Msg)
    (include_system_message : Bool) : List Msg × Nat :=
  let system_messages := all_messages.filter (fun m => m.role == "system")
  if include_system_message && !system_messages.isEmpty then
    (system_messages, count_messages_tokens enc system_messages)
  else ([], 0)

/-- Embedding of ShortTermMemory.get_messages_with_token_limit
(short_term.py lines 115-172), applied to an already-fetched message list:
empty history returns []; when not include_system_message the history is
pre-filtered; if the total fits the budget the (filtered) history is
returned whole; otherwise the result starts from the system messages
(truncation_start) and the reversed non-system messages are folded
through budget_loop. -/
def get_messages_with_token_limit (enc : String → Nat) (all_messages0 : List Msg)
    (max_tokens : Nat) (include_system_message : Bool) : List Msg :=
  if all_messages0.isEmpty then []
  else
    let all_messages :=
      if include_system_message then all_messages0
      else all_messages0.filter (fun m => m.role != "system")
    let total_tokens := count_messages_tokens enc all_messages
    if total_tokens ≤ max_tokens then all_messages
    else
      let non_system_messages := all_messages.filter (fun m => m.role != "system")
      budget_loop enc max_tokens non_system_messages.reverse
        (truncation_start enc all_messages include_system_message).1
        (truncation_start enc all_messages include_system_message).2

/-- Cache-or-durable resolution at the top of
ShortTermMemory.get_conversation_messages (short_term.py lines 41-52): an
absent or empty Redis entry falls through to the PostgreSQL message log. -/
def resolved_messages (cached : Option (List Msg)) (durable : List Msg) : List Msg :=
  match cached with
  | some l => if l.isEmpty then durable else l
  | none => durable

/-- Embedding of ShortTermMemory.get_conversation_messages (short_term.py
lines 25-67).  limit = none (or the falsy limit 0) defaults to the
configured max_messages; when the history is longer than the bound, Python
takes messages[-max_msgs:], which for the degenerate max_msgs = 0 slices
from index 0 and keeps everything. -/
def get_conversation_messages (max_messages : Nat) (cached : Option (List Msg))
    (durable : List Msg) (limit : Option Nat) : List Msg :=
  let messages := resolved_messages cached durable
  let max_msgs :=
    match limit with
    | some n => if n = 0 then max_messages else n
    | none => max_messages
  if max_msgs < messages.length then
    if max_msgs = 0 then messages else messages.drop (messages.length - max_msgs)
  else messages

/-- get_messages_with_token_limit as actually invoked on a conversation:
short_term.py line 135 fetches history through get_conversation_messages
with no explicit limit, so the configured window bound applies. -/
def get_messages_with_token_limit_full (max_messages : Nat)
    (cached : Option (List Msg)) (durable : List Msg) (enc : String → Nat)
    (max_tokens : Nat) (include_system_message : Bool) : List Msg :=
  get_messages_with_token_limit enc
    (get_conversation_messages max_messages cached durable none)
    max_tokens include_system_message

/-- Token count the truncation path of get_messages_with_token_limit
starts from before walking non-system messages: the batch token count of
the system messages when include_system_message is set and any exist
(short_term.py lines 156-160), else 0. -/
def system_start_tokens (enc : String → Nat) (all_messages : List Msg)
    (include_system_message : Bool) : Nat :=
  let system_messages := all_messages.filter (fun m => m.role == "system")
  if include_system_message && !system_messages.isEmpty then
    count_messages_tokens enc system_messages
  else 0

/-- Sum of the per-message token counts the truncation loop pays for a
list of accepted messages. -/
def suffix_cost (enc : String → Nat) (l : List Msg) : Nat :=
  (l.map (fun m => count_messages_tokens enc [m])).sum

/-- Python/JSON values as they flow through the long-term store and the
summarizer: JSON null, strings, booleans, ints, floats (modelled as
rationals), arrays and objects.  Python distinguishes int and float, so
both constructors are kept. -/
inductive JVal where
  | null : JVal
  | str : String → JVal
  | bool : Bool → JVal
  | int : Int → JVal
  | num : ℚ → JVal
  | arr : List JVal → JVal
  | obj : List (String × JVal) → JVal

/-- Rendering of an optional string into a Python dict value (None becomes
JSON null). -/
def opt_str_val : Option String → JVal
  | some s => JVal.str s
  | none => JVal.null

/-- Rendering of a datetime timestamp via datetime.isoformat, abstracted:
timestamps are naturals and the rendering is their decimal string (an
injective stand-in for the ISO string). -/
def iso_format (t : Nat) : String := toString t

/-- Row of the memories table (db/models.py Memory): importance is a
float scored in a rational, metadata an optional JSON object, timestamps
naturals. -/
structure MemRec where
  id : String
  user_id : String
  content : String
  source : Option String
  importance : ℚ
  category : Option String
  metadata : Option (List (String × JVal))
  is_active : Bool
  embedding_id : Option String
  created_at : Nat
  updated_at : Nat

/-- PostgreSQL state relevant to the claims: the memories table and the
memory_tags table ((memory_id, tag) rows in insertion order). -/
structure PgState where
  memories : List MemRec
  memory_tags : List (String × String)

/-- Embedding of PostgresClient.get_memory_by_id (postgres_client.py lines
273-285): first row whose id matches. -/
def get_memory_by_id (pg : PgState) (memory_id : String) : Option MemRec :=
  pg.memories.find? (fun m => m.id == memory_id)

/-- Embedding of PostgresClient.get_memory_tags (postgres_client.py lines
418-433): the tag column of all rows for the memory. -/
def get_memory_tags (pg : PgState) (memory_id : String) : List String :=
  (pg.memory_tags.filter (fun t => t.1 == memory_id)).map (fun t => t.2)

/-- Embedding of PostgresClient.add_memory_tag (postgres_client.py lines
389-416): return the existing row if the (memory_id, tag) pair is already
present, otherwise insert it. -/
def add_memory_tag (pg : PgState) (memory_id tag : String) : PgState :=
  if pg.memory_tags.contains (memory_id, tag) then pg
  else { pg with memory_tags := pg.memory_tags ++ [(memory_id, tag)] }

/-- Embedding of PostgresClient.remove_memory_tag (postgres_client.py
lines 435-458): delete the first matching row and report success, or
report failure when absent. -/
def remove_memory_tag (pg : PgState) (memory_id tag : String) : PgState × Bool :=
  if pg.memory_tags.contains (memory_id, tag) then
    ({ pg with memory_tags := pg.memory_tags.erase (memory_id, tag) }, true)
  else (pg, false)

/-- Embedding of PostgresClient.create_memory (postgres_client.py lines
233-271); the uuid primary key is passed in as new_id and both timestamps
are the creation instant. -/
def pg_create_memory (pg : PgState) (new_id user_id content : String)
    (source : Option String) (importance : ℚ) (category : Option String)
    (metadata : Option (List (String × JVal))) (embedding_id : Option String)
    (now : Nat) : PgState × MemRec :=
  let memory : MemRec :=
    { id := new_id, user_id := user_id, content := content, source := source,
      importance := importance, category := category, metadata := metadata,
      is_active := true, embedding_id := embedding_id,
      created_at := now, updated_at := now }
  ({ pg with memories := pg.memories ++ [memory] }, memory)

/-- Field rewrite PostgresClient.update_memory applies to the matched row
(postgres_client.py lines 343-360): only supplied fields change and
updated_at is always set. -/
def apply_memory_updates (m : MemRec) (content : Option String)
    (importance : Option ℚ) (category : Option String)
    (metadata : Option (List (String × JVal))) (is_active : Option Bool)
    (embedding_id : Option String) (now : Nat) : MemRec :=
  { m with
    content := content.getD m.content,
    importance := importance.getD m.importance,
    category := category.or m.category,
    metadata := metadata.or m.metadata,
    is_active := is_active.getD m.is_active,
    embedding_id := embedding_id.or m.embedding_id,
    updated_at := now }

/-- Embedding of PostgresClient.update_memory (postgres_client.py lines
318-362): look the row up by primary key; absent rows report failure,
otherwise the row is rewritten and success reported. -/
def pg_update_memory (pg : PgState) (memory_id : String)
    (content : Option String) (importance : Option ℚ) (category : Option String)
    (metadata : Option (List (String × JVal))) (is_active : Option Bool)
    (embedding_id : Option String) (now : Nat) : PgState × Bool :=
  match get_memory_by_id pg memory_id with
  | none => (pg, false)
  | some _ =>
    ({ pg with memories := pg.memories.map (fun m =>
        if m.id == memory_id then
          apply_memory_updates m content importance category metadata
            is_active embedding_id now
        else m) }, true)

/-- Embedding of PostgresClient.delete_memory (postgres_client.py lines
364-386): soft delete clears is_active and bumps updated_at, hard delete
removes the row; an absent id reports failure. -/
def pg_delete_memory (pg : PgState) (memory_id : String) (soft_delete : Bool)
    (now : Nat) : PgState × Bool :=
  match get_memory_by_id pg memory_id with
  | none => (pg, false)
  | some _ =>
    if soft_delete then
      ({ pg with memories := pg.memories.map (fun m =>
          if m.id == memory_id then
            { m with is_active := false, updated_at := now }
          else m) }, true)
    else
      ({ pg with memories := pg.memories.filter (fun m => m.id != memory_id) }, true)

/-- Ordering used by PostgresClient.get_user_memories (postgres_client.py
line 313): importance descending, then updated_at descending. -/
def memory_order (a b : MemRec) : Prop :=
  b.importance < a.importance ∨
    (a.importance = b.importance ∧ b.updated_at ≤ a.updated_at)

instance : DecidableRel memory_order := fun a b => by
  unfold memory_order; infer_instance

/-- Embedding of PostgresClient.get_user_memories (postgres_client.py
lines 287-316): filter by owner, by category when the category argument
is truthy, by is_active when active_only, then order by importance
descending and updated_at descending (SQL ordering modelled as a stable
sort). -/
def get_user_memories (pg : PgState) (user_id : String)
    (category : Option String) (active_only : Bool) : List MemRec :=
  let l := pg.memories.filter (fun m => m.user_id == user_id)
  let l :=
    match category with
    | some c => if c = "" then l else l.filter (fun m => m.category == some c)
    | none => l
  let l := if active_only then l.filter (fun m => m.is_active) else l
  List.insertionSort memory_order l

/-- Vector index state: the set of indexed entries, keyed by embedding id,
with their document text.  The chroma internals are external; only the
keyed entries matter to the core. -/
def VectorState := List (String × String)

/-- One element of VectorStore.search_memories output (vector_store.py
lines 251-259): id, document text, and an optional distance (None when
the backend reports no distances). -/
structure VecResult where
  id : String
  text : String
  distance : Option ℚ

/-- Full system state seen by LongTermMemory: the relational store, the
vector index, and the set of user ids whose Redis memory-list cache entry
currently exists (invalidation deletes the key). -/
structure SysState where
  pg : PgState
  vector : VectorState
  cached_users : List String

/-- Python dict.update semantics on association lists: each updating pair
overwrites an existing key in place or is appended. -/
def dict_update (base upd : List (String × JVal)) : List (String × JVal) :=
  upd.foldl (fun acc kv =>
    if acc.any (fun p => p.1 == kv.1) then
      acc.map (fun p => if p.1 == kv.1 then kv else p)
    else acc ++ [kv]) base

/-- The vector_metadata dict built by LongTermMemory.create_memory
(long_term.py lines 66-75), merged with the caller metadata when that dict
is truthy (non-empty). -/
def create_vector_metadata (user_id : String) (source : Option String)
    (category : Option String) (importance : ℚ) (now : Nat)
    (metadata : Option (List (String × JVal))) : List (String × JVal) :=
  let base : List (String × JVal) :=
    [("user_id", JVal.str user_id), ("source", opt_str_val source),
     ("category", opt_str_val category), ("importance", JVal.num importance),
     ("created_at", JVal.str (iso_format now))]
  match metadata with
  | some md => if md.isEmpty then base else dict_update base md
  | none => base

/-- The record dict LongTermMemory returns for a memory (long_term.py
lines 102-114 and 133-145): note that it carries no is_active key. -/
def memory_view (m : MemRec) (tags : List String) : List (String × JVal) :=
  [("id", JVal.str m.id),
   ("user_id", JVal.str m.user_id),
   ("content", JVal.str m.content),
   ("source", opt_str_val m.source),
   ("importance", JVal.num m.importance),
   ("category", opt_str_val m.category),
   ("metadata", match m.metadata with | some d => JVal.obj d | none => JVal.null),
   ("created_at", JVal.str (iso_format m.created_at)),
   ("updated_at", JVal.str (iso_format m.updated_at)),
   ("embedding_id", opt_str_val m.embedding_id),
   ("tags", JVal.arr (tags.map JVal.str))]

/-- Embedding of LongTermMemory.create_memory (long_term.py lines 40-114).
The semantic index add (VectorStore.add_memory, vector_store.py lines
107-180) is an external capability vs_add that either returns the new
embedding id and index state or raises; it is invoked first, and an error
propagates before any durable write, tag write, or cache invalidation. -/
def long_create_memory
    (vs_add : String → List (String × JVal) → VectorState →
      Except String (String × VectorState))
    (s : SysState) (new_id user_id content : String) (source : Option String)
    (importance : ℚ) (category : Option String)
    (metadata : Option (List (String × JVal))) (tags : Option (List String))
    (now : Nat) : SysState × Except String (List (String × JVal)) :=
  let vector_metadata := create_vector_metadata user_id source category importance now metadata
  match vs_add content vector_metadata s.vector with
  | Except.error e => (s, Except.error e)
  | Except.ok (embedding_id, v2) =>
    let pm := pg_create_memory s.pg new_id user_id content source importance
      category metadata (some embedding_id) now
    let pg3 :=
      match tags with
      | some ts => ts.foldl (fun acc tag => add_memory_tag acc pm.2.id tag) pm.1
      | none => pm.1
    ({ pg := pg3, vector := v2,
       cached_users := s.cached_users.filter (fun u => u != user_id) },
     Except.ok (memory_view pm.2 (tags.getD [])))

/-- Embedding of LongTermMemory.get_memory (long_term.py lines 116-145):
the record dict with its tags, or None when absent. -/
def long_get_memory (s : SysState) (memory_id : String) :
    Option (List (String × JVal)) :=
  match get_memory_by_id s.pg memory_id with
  | none => none
  | some memory => some (memory_view memory (get_memory_tags s.pg memory_id))

/-- Embedding of LongTermMemory.update_memory (long_term.py lines
147-232).  The semantic index update is the external capability
vs_update (given the record's embedding id, the optional new text and the
optional rebuilt metadata); it only runs when content or metadata was
supplied.  Tag updates diff the requested list against the tags stored
before the loop, removing stale rows and adding missing ones. -/
def long_update_memory
    (vs_update : Option String → Option String → Option (List (String × JVal)) →
      VectorState → VectorState)
    (s : SysState) (memory_id : String) (content : Option String)
    (importance : Option ℚ) (category : Option String)
    (metadata : Option (List (String × JVal))) (is_active : Option Bool)
    (tags : Option (List String)) (now : Nat) : SysState × Bool :=
  match get_memory_by_id s.pg memory_id with
  | none => (s, false)
  | some memory =>
    let v :=
      if content.isSome || metadata.isSome then
        let vector_metadata :=
          match metadata with
          | some md =>
            let base : List (String × JVal) :=
              [("user_id", JVal.str memory.user_id),
               ("source", opt_str_val memory.source),
               ("category", opt_str_val (category.or memory.category)),
               ("importance", JVal.num (importance.getD memory.importance)),
               ("updated_at", JVal.str (iso_format now))]
            some (if md.isEmpty then base else dict_update base md)
          | none => none
        vs_update memory.embedding_id content vector_metadata s.vector
      else s.vector
    let pu := pg_update_memory s.pg memory_id content importance category
      metadata is_active none now
    let pg3 :=
      match tags with
      | none => pu.1
      | some ts =>
        let existing_tags := get_memory_tags pu.1 memory_id
        let pgA := existing_tags.foldl (fun acc tag =>
          if ts.contains tag then acc else (remove_memory_tag acc memory_id tag).1) pu.1
        ts.foldl (fun acc tag =>
          if existing_tags.contains tag then acc else add_memory_tag acc memory_id tag) pgA
    ({ pg := pg3, vector := v,
       cached_users := s.cached_users.filter (fun u => u != memory.user_id) },
     pu.2)

/-- Embedding of LongTermMemory.delete_memory (long_term.py lines
234-260): absent ids report failure; hard delete first removes the vector
entry (when an embedding id exists), then the row; both paths invalidate
the owner's cache entry. -/
def long_delete_memory (s : SysState) (memory_id : String) (soft_delete : Bool)
    (now : Nat) : SysState × Bool :=
  match get_memory_by_id s.pg memory_id with
  | none => (s, false)
  | some memory =>
    let v :=
      if !soft_delete then
        match memory.embedding_id with
        | some eid => s.vector.filter (fun e => e.1 != eid)
        | none => s.vector
      else s.vector
    let pd := pg_delete_memory s.pg memory_id soft_delete now
    ({ pg := pd.1, vector := v,
       cached_users := s.cached_users.filter (fun u => u != memory.user_id) },
     pd.2)

/-- Relevance computed by LongTermMemory.search_memories (long_term.py
line 322): 1.0 minus the distance when the distance field is truthy
(present and nonzero), else 1.0 minus 0. -/
def result_relevance (distance : Option ℚ) : ℚ :=
  1 - (match distance with
       | some d => if d ≠ 0 then d else 0
       | none => 0)

/-- One entry of LongTermMemory.search_memories output (long_term.py
lines 310-323). -/
structure SearchResult where
  id : String
  user_id : String
  content : String
  source : Option String
  importance : ℚ
  category : Option String
  metadata : Option (List (String × JVal))
  created_at : Nat
  updated_at : Nat
  embedding_id : Option String
  tags : List String
  relevance : ℚ

/-- The result dict built for a matched memory in search_memories. -/
def search_result_of (s : SysState) (memory : MemRec) (vr : VecResult) :
    SearchResult :=
  { id := memory.id, user_id := memory.user_id, content := memory.content,
    source := memory.source, importance := memory.importance,
    category := memory.category, metadata := memory.metadata,
    created_at := memory.created_at, updated_at := memory.updated_at,
    embedding_id := memory.embedding_id,
    tags := get_memory_tags s.pg memory.id,
    relevance := result_relevance vr.distance }

/-- Embedding of LongTermMemory.search_memories (long_term.py lines
262-328) downstream of the vector query: the candidate list returned by
the semantic index is a parameter.  Each candidate is matched against the
owner's active memory list by embedding id (first match wins); matched
active memories become result dicts; finally the results are sorted by
relevance descending (Python's stable list sort with reverse=True). -/
def long_search_memories (s : SysState) (user_id : String)
    (vector_results : List VecResult) : List SearchResult :=
  let results := vector_results.foldl (fun acc vr =>
    let memories := get_user_memories s.pg user_id none true
    match memories.find? (fun mem => mem.embedding_id == some vr.id) with
    | some memory =>
      if memory.is_active then acc ++ [search_result_of s memory vr] else acc
    | none => acc) []
  List.insertionSort (fun a b => b.relevance ≤ a.relevance) results

/-- Opening brace character (written via its code point). -/
def lbrace : Char := Char.ofNat 123

/-- Closing brace character (written via its code point). -/
def rbrace : Char := Char.ofNat 125

/-- Boolean test that pat is an initial segment of l. -/
def list_starts_with : List Char → List Char → Bool
  | [], _ => true
  | _ :: _, [] => false
  | p :: ps, c :: cs => p == c && list_starts_with ps cs

/-- Index of the first occurrence of pat as a contiguous sublist of l. -/
def find_sub_idx (pat : List Char) : List Char → Option Nat
  | [] => if list_starts_with pat [] then some 0 else none
  | c :: t =>
    if list_starts_with pat (c :: t) then some 0
    else (find_sub_idx pat t).map (fun i => i + 1)

/-- Index of the first occurrence of character c in l. -/
def first_idx_of (c : Char) : List Char → Option Nat
  | [] => none
  | d :: t => if d == c then some 0 else (first_idx_of c t).map (fun i => i + 1)

/-- Index of the last occurrence of character c in l. -/
def last_idx_of (c : Char) (l : List Char) : Option Nat :=
  (first_idx_of c l.reverse).map (fun i => l.length - 1 - i)

/-- JSON whitespace skipping. -/
def skip_ws : List Char → List Char
  | c :: t =>
    if c == ' ' || c == '\n' || c == '\t' || c == '\r' then skip_ws t else c :: t
  | [] => []

/-- Body of a JSON string after its opening quote (escape sequences are
outside the modelled subset). -/
def parse_string_body : List Char → Option (String × List Char)
  | [] => none
  | c :: t =>
    if c == '\"' then some ("", t)
    else (parse_string_body t).map (fun p => (String.mk (c :: p.1.data), p.2))

/-- Decimal digits to a natural number. -/
def digits_to_nat (ds : List Char) : Nat :=
  ds.foldl (fun n c => n * 10 + (c.toNat - 48)) 0

mutual

/-- Modelled from the spec and the Python stdlib json capability: a
recursive-descent parser for the JSON subset exercised by the summarizer
claims (null, booleans, integers, strings without escapes, arrays,
objects), with fuel for termination.  It consumes one JSON value and
returns the unconsumed rest. -/
def pvalue : Nat → List Char → Option (JVal × List Char)
  | 0, _ => none
  | Nat.succ fuel, cs =>
    match skip_ws cs with
    | [] => none
    | c :: t =>
      if c == '\"' then (parse_string_body t).map (fun p => (JVal.str p.1, p.2))
      else if c == lbrace then
        match skip_ws t with
        | d :: t2 =>
          if d == rbrace then some (JVal.obj [], t2)
          else (pobj_members fuel t).map (fun p => (JVal.obj p.1, p.2))
        | [] => none
      else if c == '[' then
        match skip_ws t with
        | d :: t2 =>
          if d == ']' then some (JVal.arr [], t2)
          else (parr_items fuel t).map (fun p => (JVal.arr p.1, p.2))
        | [] => none
      else if c == '-' then
        match List.span Char.isDigit t with
        | (ds, r) =>
          if ds.isEmpty then none
          else some (JVal.int (-(digits_to_nat ds : Int)), r)
      else if c.isDigit then
        match List.span Char.isDigit (c :: t) with
        | (ds, r) => some (JVal.int (digits_to_nat ds), r)
      else if list_starts_with "true".data (c :: t) then
        some (JVal.bool true, t.drop 3)
      else if list_starts_with "false".data (c :: t) then
        some (JVal.bool false, t.drop 4)
      else if list_starts_with "null".data (c :: t) then
        some (JVal.null, t.drop 3)
      else none

/-- Object members after the opening brace (or after a comma). -/
def pobj_members : Nat → List Char → Option (List (String × JVal) × List Char)
  | 0, _ => none
  | Nat.succ fuel, cs =>
    match skip_ws cs with
    | c :: t =>
      if c == '\"' then
        match parse_string_body t with
        | some (k, r1) =>
          match skip_ws r1 with
          | d :: r2 =>
            if d == ':' then
              match pvalue fuel r2 with
              | some (v, r3) =>
                match skip_ws r3 with
                | e :: r4 =>
                  if e == ',' then
                    (pobj_members fuel r4).map (fun p => ((k, v) :: p.1, p.2))
                  else if e == rbrace then some ([(k, v)], r4)
                  else none
                | [] => none
              | none => none
            else none
          | [] => none
        | none => none
      else none
    | [] => none

/-- Array items after the opening bracket (or after a comma). -/
def parr_items : Nat → List Char → Option (List JVal × List Char)
  | 0, _ => none
  | Nat.succ fuel, cs =>
    match pvalue fuel cs with
    | some (v, r1) =>
      match skip_ws r1 with
      | e :: r2 =>
        if e == ',' then (parr_items fuel r2).map (fun p => (v :: p.1, p.2))
        else if e == ']' then some ([v], r2)
        else none
      | [] => none
    | none => none

end

/-- Modelled from the spec and the Python stdlib json capability:
json.loads on the modelled subset — parse one value and require only
whitespace to remain (extra data is an error). -/
def mini_json_parse (s : String) : Option JVal :=
  match pvalue (2 * s.data.length + 2) s.data with
  | some (v, rest) => if (skip_ws rest).isEmpty then some v else none
  | none => none

/-- Pattern opening a fenced json block in the recovery regex of
summarizer.extract_key_information (summarizer.py line 194). -/
def open_fence : List Char := "```json\n".data

/-- Pattern closing a fenced json block in the same regex. -/
def close_fence : List Char := "\n```".data

/-- Leftmost-match search for the fenced-block regex with a lazy group:
the earliest opening fence that is followed by a closing fence, with the
group running to the first closing fence after it. -/
def fenced_json_search : List Char → Option String
  | [] => none
  | c :: t =>
    if list_starts_with open_fence (c :: t) then
      match find_sub_idx close_fence ((c :: t).drop open_fence.length) with
      | some j => some (String.mk (((c :: t).drop open_fence.length).take j))
      | none => fenced_json_search t
    else fenced_json_search t

/-- The group captured by re.search of the fenced-block pattern over the
model response (summarizer.py line 194). -/
def fenced_json_group (s : String) : Option String :=
  fenced_json_search s.data

/-- The group captured by re.search of the greedy brace pattern
(summarizer.py line 200) with DOTALL: from the first opening brace to the
last closing brace, when the latter comes after the former. -/
def brace_group (s : String) : Option String :=
  match first_idx_of lbrace s.data, last_idx_of rbrace s.data with
  | some p, some q =>
    if p < q then some (String.mk ((s.data.drop p).take (q - p + 1))) else none
  | _, _ => none

/-- The empty four-key structure extract_key_information falls back to
(summarizer.py lines 207-212). -/
def default_key_info : JVal :=
  JVal.obj [("personal_info", JVal.obj []), ("tasks", JVal.arr []),
            ("questions", JVal.arr []), ("important_dates", JVal.arr [])]

/-- Embedding of ConversationSummarizer.extract_key_information
(summarizer.py lines 129-232) downstream of the LLM call, over the raw
model response.  The stdlib json parser is the capability jparse.  Direct
parse first; on failure, a parseable fenced block is returned; when a
fenced block exists but fails to parse, the exception lands in the inner
handler and the default structure is returned (the brace fallback is not
reached); with no fenced block, a brace-delimited span is tried the same
way; with nothing left, the default structure is returned.  Every path
returns a value: no exception escapes. -/
def extract_key_information (jparse : String → Option JVal)
    (info_text : String) : JVal :=
  match jparse info_text with
  | some j => j
  | none =>
    match fenced_json_group info_text with
    | some g =>
      match jparse g with
      | some j => j
      | none => default_key_info
    | none =>
      match brace_group info_text with
      | some g =>
        match jparse g with
        | some j => j
        | none => default_key_info
      | none => default_key_info

/-- Lookup of a top-level key in a parsed JSON object (none when the
value is not an object or the key is absent). -/
def obj_lookup (v : JVal) (k : String) : Option JVal :=
  match v with
  | JVal.obj l => l.lookup k
  | _ => none

/-- An always-failing semantic-index add capability: the index is
unreachable, both the primary and the fallback embedding attempt raise. -/
def failing_vs_add :
    String → List (String × JVal) → VectorState → Except String (String × VectorState) :=
  fun _ _ _ => Except.error "index unreachable"

/-- A small concrete system state: no memories, no tags, empty index, one
warm cache entry. -/
def empty_sys_state : SysState :=
  { pg := { memories := [], memory_tags := [] }, vector := [], cached_users := ["u1"] }

/-- Concrete memory row used by the witnesses: active, owned by u1,
indexed under e1. -/
def mem_m1 : MemRec :=
  { id := "m1", user_id := "u1", content := "likes apples", source := none,
    importance := 1, category := none, metadata := none, is_active := true,
    embedding_id := some "e1", created_at := 0, updated_at := 0 }

/-- Concrete system state used by the witnesses: the single memory m1
with tags a and b. -/
def sample_state : SysState :=
  { pg := { memories := [mem_m1], memory_tags := [("m1", "a"), ("m1", "b")] },
    vector := [("e1", "likes apples")], cached_users := [] }

/-- A semantic-index update capability that leaves the index unchanged
(it is never invoked on tag-only updates). -/
def noop_vs_update :
    Option String → Option String → Option (List (String × JVal)) →
      VectorState → VectorState :=
  fun _ _ _ v => v

/-- Concrete memory A: low importance, indexed under eA. -/
def mem_a : MemRec :=
  { id := "A", user_id := "u1", content := "a", source := none, importance := 0,
    category := none, metadata := none, is_active := true,
    embedding_id := some "eA", created_at := 0, updated_at := 0 }

/-- Concrete memory B: high importance, indexed under eB. -/
def mem_b : MemRec :=
  { id := "B", user_id := "u1", content := "b", source := none, importance := 1,
    category := none, metadata := none, is_active := true,
    embedding_id := some "eB", created_at := 0, updated_at := 0 }

/-- Concrete memory C: low importance, indexed under eC. -/
def mem_c : MemRec :=
  { id := "C", user_id := "u1", content := "c", source := none, importance := 0,
    category := none, metadata := none, is_active := true,
    embedding_id := some "eC", created_at := 0, updated_at := 0 }

/-- Concrete three-memory state for the relevance counterexample. -/
def c3_state : SysState :=
  { pg := { memories := [mem_a, mem_b, mem_c], memory_tags := [] },
    vector := [("eA", "a"), ("eB", "b"), ("eC", "c")], cached_users := [] }

/-- Index candidates: A and B report no distance, C reports distance 2. -/
def c3_vrs : List VecResult :=
  [VecResult.mk "eA" "a" none, VecResult.mk "eB" "b" none,
   VecResult.mk "eC" "c" (some 2)]

/-- Concrete soft-deleted memory D (is_active already false). -/
def mem_d : MemRec :=
  { id := "D", user_id := "u1", content := "d", source := none, importance := 1,
    category := none, metadata := none, is_active := false,
    embedding_id := some "eD", created_at := 0, updated_at := 0 }

/-- Concrete state holding only the soft-deleted memory D. -/
def c4_state : SysState :=
  { pg := { memories := [mem_d], memory_tags := [] },
    vector := [("eD", "d")], cached_users := ["u1"] }

/-! Helper lemmas about the truncation loop of the short-term window. -/

theorem budget_loop_spec (enc : String → Nat) (maxT : Nat) :
    ∀ (l acc : List Msg) (cur : Nat),
      ∃ k, k ≤ l.length ∧
        budget_loop enc maxT l acc cur = (l.take k).reverse ++ acc ∧
        ∀ m rest, l.drop k = m :: rest →
          maxT < cur + suffix_cost enc (l.take k) + count_messages_tokens enc [m] := by
  intro l
  induction l with
  | nil =>
    intro acc cur
    exact ⟨0, by simp [budget_loop]⟩
  | cons msg rest ih =>
    intro acc cur
    by_cases h : cur + count_messages_tokens enc [msg] ≤ maxT
    · obtain ⟨k, hk, heq, hb⟩ := ih (msg :: acc) (cur + count_messages_tokens enc [msg])
      refine ⟨k + 1, by simpa using Nat.succ_le_succ hk, ?_, ?_⟩
      · rw [budget_loop, if_pos h, heq]
        simp [List.take_succ_cons]
      · intro m r hd
        have hrec := hb m r (by simpa using hd)
        simp only [List.take_succ_cons, suffix_cost, List.map_cons, List.sum_cons] at hrec ⊢
        omega
    · refine ⟨0, Nat.zero_le _, by simp [budget_loop, h], ?_⟩
      intro m r hd
      simp only [List.drop_zero, List.cons.injEq] at hd
      obtain ⟨rfl, rfl⟩ := hd
      simp only [List.take_zero, suffix_cost, List.map_nil, List.sum_nil]
      omega

theorem budget_loop_mem (enc : String → Nat) (maxT : Nat) :
    ∀ (l acc : List Msg) (cur : Nat) (m : Msg),
      m ∈ budget_loop enc maxT l acc cur → m ∈ l ∨ m ∈ acc := by
  intro l
  induction l with
  | nil =>
    intro acc cur m hm
    rw [budget_loop] at hm
    exact Or.inr hm
  | cons msg rest ih =>
    intro acc cur m hm
    rw [budget_loop] at hm
    split at hm
    · rcases ih _ _ _ hm with h | h
      · exact Or.inl (List.mem_cons_of_mem _ h)
      · rcases List.mem_cons.mp h with rfl | h
        · exact Or.inl (List.mem_cons_self _ _)
        · exact Or.inr h
    · exact Or.inr hm

theorem truncation_start_mem (enc : String → Nat) (all : List Msg) (incl : Bool)
    (m : Msg) (h : m ∈ (truncation_start enc all incl).1) :
    m ∈ all ∧ m.role == "system" := by
  simp only [truncation_start] at h
  split at h
  · have h2 : m ∈ all.filter (fun x => x.role == "system") := h
    have h3 := List.of_mem_filter h2
    exact ⟨List.mem_of_mem_filter h2, by simpa using h3⟩
  · simp at h

theorem get_within_budget_truncation (enc : String → Nat) (all0 : List Msg)
    (maxT : Nat) (incl : Bool) (hne : all0.isEmpty = false)
    (htr : maxT <
      count_messages_tokens enc
        (if incl then all0 else all0.filter (fun m => m.role != "system"))) :
    get_messages_with_token_limit enc all0 maxT incl =
      budget_loop enc maxT
        ((if incl then all0 else all0.filter (fun m => m.role != "system")).filter
          (fun m => m.role != "system")).reverse
        (truncation_start enc
          (if incl then all0 else all0.filter (fun m => m.role != "system")) incl).1
        (truncation_start enc
          (if incl then all0 else all0.filter (fun m => m.role != "system")) incl).2 := by
  simp only [get_messages_with_token_limit, hne, Bool.false_eq_true, if_false]
  rw [if_neg (by omega)]

theorem get_messages_with_token_limit_mem (enc : String → Nat) (all0 : List Msg)
    (maxT : Nat) (incl : Bool) :
    ∀ m ∈ get_messages_with_token_limit enc all0 maxT incl, m ∈ all0 := by
  intro m hm
  have hview : ∀ x ∈ (if incl then all0 else all0.filter (fun y => y.role != "system")),
      x ∈ all0 := by
    intro x hx
    rcases incl with _ | _
    · simp only [Bool.false_eq_true, if_false] at hx
      exact List.mem_of_mem_filter hx
    · simpa using hx
  by_cases hne : all0.isEmpty
  · simp [get_messages_with_token_limit, hne] at hm
  · by_cases ht : count_messages_tokens enc
        (if incl then all0 else all0.filter (fun y => y.role != "system")) ≤ maxT
    · have heq : get_messages_with_token_limit enc all0 maxT incl =
          (if incl then all0 else all0.filter (fun y => y.role != "system")) := by
        simp only [get_messages_with_token_limit, hne, Bool.false_eq_true, if_false]
        rw [if_pos ht]
      rw [heq] at hm
      exact hview m hm
    · rw [get_within_budget_truncation enc all0 maxT incl
        (by simpa using hne) (by omega)] at hm
      rcases budget_loop_mem enc maxT _ _ _ m hm with h | h
      · exact hview m (List.mem_of_mem_filter (List.mem_reverse.mp h))
      · exact hview m (truncation_start_mem enc _ incl m h).1

theorem truncation_start_snd (enc : String → Nat) (all : List Msg) (incl : Bool) :
    (truncation_start enc all incl).2 = system_start_tokens enc all incl := by
  simp only [truncation_start, system_start_tokens]
  split <;> rfl

theorem suffix_cost_reverse (enc : String → Nat) (l : List Msg) :
    suffix_cost enc l.reverse = suffix_cost enc l := by
  simp [suffix_cost, List.map_reverse, List.sum_reverse]

theorem filter_non_system_view (all0 : List Msg) (incl : Bool) :
    (if incl then all0 else all0.filter (fun m => m.role != "system")).filter
        (fun m => m.role != "system")
      = all0.filter (fun m => m.role != "system") := by
  rcases incl with _ | _
  · simp [List.filter_filter]
  · simp

/-- C8: in the truncation path, the non-system part of the output is a
suffix (drop k) of the non-system history — walking newest to oldest, the
first message that would push the running total past the budget ends the
walk, and no older message ever appears, even one that would individually
fit: whenever any message was dropped, the newest dropped message (the
head of the reversed dropped prefix) already overflows the budget on top
of the accepted suffix and the system-message start. -/
theorem get_within_budget_greedy_suffix (enc : String → Nat) (all0 : List Msg)
    (maxT : Nat) (incl : Bool)
    (htrunc : maxT < count_messages_tokens enc
      (if incl then all0 else all0.filter (fun m => m.role != "system"))) :
    ∃ k, (get_messages_with_token_limit enc all0 maxT incl).filter
          (fun m => m.role != "system")
        = (all0.filter (fun m => m.role != "system")).drop k ∧
      ∀ m rest,
        ((all0.filter (fun m2 => m2.role != "system")).take k).reverse = m :: rest →
        maxT < system_start_tokens enc
            (if incl then all0 else all0.filter (fun m2 => m2.role != "system")) incl
          + suffix_cost enc ((all0.filter (fun m2 => m2.role != "system")).drop k)
          + count_messages_tokens enc [m] := by
  by_cases hne : all0.isEmpty
  · have h0 : all0 = [] := List.isEmpty_iff.mp hne
    subst h0
    refine ⟨0, by simp [get_messages_with_token_limit], ?_⟩
    intro m rest h
    simp at h
  · rw [get_within_budget_truncation enc all0 maxT incl (by simpa using hne) htrunc]
    rw [filter_non_system_view]
    obtain ⟨k0, hk0, heq, hb⟩ := budget_loop_spec enc maxT
      (all0.filter (fun m => m.role != "system")).reverse
      (truncation_start enc
        (if incl then all0 else all0.filter (fun m => m.role != "system")) incl).1
      (truncation_start enc
        (if incl then all0 else all0.filter (fun m => m.role != "system")) incl).2
    rw [heq]
    refine ⟨(all0.filter (fun m => m.role != "system")).length - k0, ?_, ?_⟩
    · rw [List.filter_append]
      have h1 : (((all0.filter (fun m => m.role != "system")).reverse.take k0).reverse).filter
          (fun m => m.role != "system")
          = ((all0.filter (fun m => m.role != "system")).reverse.take k0).reverse := by
        apply List.filter_eq_self.mpr
        intro a ha
        have ha2 : a ∈ all0.filter (fun m => m.role != "system") :=
          List.mem_reverse.mp (List.mem_of_mem_take (List.mem_reverse.mp ha))
        have := List.of_mem_filter ha2
        simpa using this
      have h2 : ((truncation_start enc
          (if incl then all0 else all0.filter (fun m => m.role != "system")) incl).1).filter
          (fun m => m.role != "system") = [] := by
        apply List.filter_eq_nil_iff.mpr
        intro a ha
        have hsys := (truncation_start_mem enc _ incl a ha).2
        simp only [bne, Bool.not_eq_true]
        simpa using hsys
      rw [h1, h2, List.append_nil, List.take_reverse, List.reverse_reverse]
    · intro m rest hmr
      have hdrop : (all0.filter (fun m2 => m2.role != "system")).reverse.drop k0
          = ((all0.filter (fun m2 => m2.role != "system")).take
              ((all0.filter (fun m2 => m2.role != "system")).length - k0)).reverse :=
        List.drop_reverse
      have hrec := hb m rest (by rw [hdrop]; exact hmr)
      rw [truncation_start_snd, List.take_reverse, suffix_cost_reverse] at hrec
      exact hrec

/-- C8 witness: the spec scenario of §8 — system message of 1 character
and alternating 1-character user and assistant messages with character
counting; a budget of 40 accepts the 2 newest non-system messages, drops
the 3rd-from-newest, and the greedy-suffix conclusion is instantiated
concretely. -/
theorem get_within_budget_greedy_suffix_witness :
    (40 < count_messages_tokens String.length
      (if true then
        [Msg.mk "system" "s", Msg.mk "user" "a", Msg.mk "assistant" "b",
         Msg.mk "user" "c", Msg.mk "assistant" "d"]
       else
        [Msg.mk "system" "s", Msg.mk "user" "a", Msg.mk "assistant" "b",
         Msg.mk "user" "c", Msg.mk "assistant" "d"].filter
          (fun m => m.role != "system"))) ∧
    ∃ k, (get_messages_with_token_limit String.length
          [Msg.mk "system" "s", Msg.mk "user" "a", Msg.mk "assistant" "b",
           Msg.mk "user" "c", Msg.mk "assistant" "d"] 40 true).filter
            (fun m => m.role != "system")
        = ([Msg.mk "system" "s", Msg.mk "user" "a", Msg.mk "assistant" "b",
            Msg.mk "user" "c", Msg.mk "assistant" "d"].filter
              (fun m => m.role != "system")).drop k ∧
      ∀ m rest,
        (([Msg.mk "system" "s", Msg.mk "user" "a", Msg.mk "assistant" "b",
           Msg.mk "user" "c", Msg.mk "assistant" "d"].filter
             (fun m2 => m2.role != "system")).take k).reverse = m :: rest →
        40 < system_start_tokens String.length
            (if true then
              [Msg.mk "system" "s", Msg.mk "user" "a", Msg.mk "assistant" "b",
               Msg.mk "user" "c", Msg.mk "assistant" "d"]
             else
              [Msg.mk "system" "s", Msg.mk "user" "a", Msg.mk "assistant" "b",
               Msg.mk "user" "c", Msg.mk "assistant" "d"].filter
                (fun m2 => m2.role != "system")) true
          + suffix_cost String.length
              (([Msg.mk "system" "s", Msg.mk "user" "a", Msg.mk "assistant" "b",
                 Msg.mk "user" "c", Msg.mk "assistant" "d"].filter
                   (fun m2 => m2.role != "system")).drop k)
          + count_messages_tokens String.length [m] :=
  ⟨by decide,
   get_within_budget_greedy_suffix String.length
     [Msg.mk "system" "s", Msg.mk "user" "a", Msg.mk "assistant" "b",
      Msg.mk "user" "c", Msg.mk "assistant" "d"] 40 true (by decide)⟩

/-- C9 (implicit): the budgeted slice only ever draws from the window of
the most recent max_messages messages — the window is a suffix of the
resolved history of length at most the bound, and every message the
token-limited slice returns lies in that window, for every token budget. -/
theorem window_bound_limits_budgeted_slice (max_messages : Nat)
    (cached : Option (List Msg)) (durable : List Msg) (enc : String → Nat)
    (max_tokens : Nat) (incl : Bool) (hpos : 0 < max_messages) :
    (get_conversation_messages max_messages cached durable none).length ≤ max_messages ∧
    (get_conversation_messages max_messages cached durable none).IsSuffix
      (resolved_messages cached durable) ∧
    ∀ m ∈ get_messages_with_token_limit_full max_messages cached durable enc
        max_tokens incl,
      m ∈ get_conversation_messages max_messages cached durable none := by
  refine ⟨?_, ?_, ?_⟩
  · by_cases hlen : max_messages < (resolved_messages cached durable).length
    · simp only [get_conversation_messages, if_pos hlen,
        if_neg (show ¬ max_messages = 0 by omega)]
      rw [List.length_drop]
      omega
    · simp only [get_conversation_messages, if_neg hlen]
      omega
  · by_cases hlen : max_messages < (resolved_messages cached durable).length
    · simp only [get_conversation_messages, if_pos hlen,
        if_neg (show ¬ max_messages = 0 by omega)]
      exact List.drop_suffix _ _
    · simp only [get_conversation_messages, if_neg hlen]
      exact List.suffix_refl _
  · intro m hm
    exact get_messages_with_token_limit_mem enc _ max_tokens incl m hm

/-- C9 witness: an 11-message durable history against the default window
bound of 10 (MAX_SHORT_TERM_MEMORY). -/
theorem window_bound_limits_budgeted_slice_witness :
    0 < 10 ∧
    ((get_conversation_messages 10 none (List.replicate 11 (Msg.mk "user" "x")) none).length
        ≤ 10 ∧
      (get_conversation_messages 10 none (List.replicate 11 (Msg.mk "user" "x")) none).IsSuffix
        (resolved_messages none (List.replicate 11 (Msg.mk "user" "x"))) ∧
      ∀ m ∈ get_messages_with_token_limit_full 10 none
          (List.replicate 11 (Msg.mk "user" "x")) String.length 1000 true,
        m ∈ get_conversation_messages 10 none (List.replicate 11 (Msg.mk "user" "x")) none) :=
  ⟨by decide,
   window_bound_limits_budgeted_slice 10 none (List.replicate 11 (Msg.mk "user" "x"))
     String.length 1000 true (by decide)⟩

/-- C1: the claim (and the function's own docstring) promise the returned
slice never exceeds the budget, even when the system messages alone
exceed it; evaluating the code at a single 20-character system message
with character counting and budget 10 shows the truncation path returns
the system message unconditionally: the output is that message and its
total token count is 32 > 10. -/
theorem budget_exceeded_on_oversized_system_message :
    get_messages_with_token_limit String.length
        [Msg.mk "system" "aaaaaaaaaaaaaaaaaaaa"] 10 true
      = [Msg.mk "system" "aaaaaaaaaaaaaaaaaaaa"] ∧
    count_messages_tokens String.length
        (get_messages_with_token_limit String.length
          [Msg.mk "system" "aaaaaaaaaaaaaaaaaaaa"] 10 true) = 32 ∧
    10 < 32 := by
  decide

/-- C2: the claim promises chronological order is preserved; evaluating
the code on history [system s, user u, user v] with character counting
and budget 25 forces truncation (total 29): the user message v is
insert(0)-ed in front of the already-placed system block, so the output
is [v, s] — the system message s, added first, comes after v in the
output, inverting the original order. -/
theorem order_inverted_when_system_precedes_users :
    get_messages_with_token_limit String.length
        [Msg.mk "system" "s", Msg.mk "user" "u", Msg.mk "user" "v"] 25 true
      = [Msg.mk "user" "v", Msg.mk "system" "s"] ∧
    [Msg.mk "system" "s", Msg.mk "user" "u", Msg.mk "user" "v"].indexOf
        (Msg.mk "system" "s") <
      [Msg.mk "system" "s", Msg.mk "user" "u", Msg.mk "user" "v"].indexOf
        (Msg.mk "user" "v") ∧
    [Msg.mk "user" "v", Msg.mk "system" "s"].indexOf (Msg.mk "user" "v") <
      [Msg.mk "user" "v", Msg.mk "system" "s"].indexOf (Msg.mk "system" "s") := by
  decide

/-- C5: when the semantic index add capability raises during
create_memory, the same error propagates to the caller and the operation
is atomic — the result state is exactly the input state: no memory row is
appended, no tag rows are written, and the owner's cache entry is not
invalidated. -/
theorem create_memory_atomic_on_index_error
    (vs_add : String → List (String × JVal) → VectorState →
      Except String (String × VectorState))
    (s : SysState) (new_id user_id content : String) (source : Option String)
    (importance : ℚ) (category : Option String)
    (metadata : Option (List (String × JVal))) (tags : Option (List String))
    (now : Nat) (e : String)
    (h : vs_add content
        (create_vector_metadata user_id source category importance now metadata)
        s.vector = Except.error e) :
    long_create_memory vs_add s new_id user_id content source importance
        category metadata tags now = (s, Except.error e) ∧
    (long_create_memory vs_add s new_id user_id content source importance
        category metadata tags now).1.pg.memories = s.pg.memories ∧
    (long_create_memory vs_add s new_id user_id content source importance
        category metadata tags now).1.pg.memory_tags = s.pg.memory_tags ∧
    (long_create_memory vs_add s new_id user_id content source importance
        category metadata tags now).1.cached_users = s.cached_users := by
  have heq : long_create_memory vs_add s new_id user_id content source importance
      category metadata tags now = (s, Except.error e) := by
    simp only [long_create_memory, h]
  exact ⟨heq, by rw [heq], by rw [heq], by rw [heq]⟩

/-- C5 witness: the atomicity theorem applied to the unreachable-index
capability on the small concrete state. -/
theorem create_memory_atomic_on_index_error_witness :
    failing_vs_add "apple pie"
        (create_vector_metadata "u1" none none 1 7 none)
        empty_sys_state.vector = Except.error "index unreachable" ∧
    long_create_memory failing_vs_add empty_sys_state "m9" "u1" "apple pie"
        none 1 none none none 7 = (empty_sys_state, Except.error "index unreachable") :=
  ⟨rfl,
   (create_memory_atomic_on_index_error failing_vs_add empty_sys_state "m9" "u1"
     "apple pie" none 1 none none none 7 "index unreachable" rfl).1⟩

/-- C6 (counterexample): the string "see \x7b\"a\": 1\x7d ok" is not
parseable JSON, yet extract_key_information recovers the brace-delimited
span and returns the parsed object — which carries none of the four
required keys — instead of the empty four-key default the claim promises
for every non-JSON response. -/
theorem extract_key_information_recovers_brace_span :
    mini_json_parse "see \x7b\"a\": 1\x7d ok" = none ∧
    extract_key_information mini_json_parse "see \x7b\"a\": 1\x7d ok"
      = JVal.obj [("a", JVal.int 1)] ∧
    obj_lookup (extract_key_information mini_json_parse "see \x7b\"a\": 1\x7d ok")
      "tasks" = none ∧
    obj_lookup default_key_info "tasks" = some (JVal.arr []) :=
  ⟨rfl, rfl, rfl, rfl⟩

/-- C6 (amended): for every model response that is not parseable JSON and
from which neither recovery stage can extract parseable JSON (the fenced
code block, when present, does not parse; otherwise the brace-delimited
span, when present, does not parse), extract_key_information returns the
default structure with all four top-level keys present and empty; being a
total function, it never raises. -/
theorem extract_key_information_default_amended (jparse : String → Option JVal)
    (info_text : String)
    (h1 : jparse info_text = none)
    (h2 : ∀ g, fenced_json_group info_text = some g → jparse g = none)
    (h3 : ∀ g, brace_group info_text = some g → jparse g = none) :
    extract_key_information jparse info_text = default_key_info := by
  unfold extract_key_information
  rw [h1]
  cases hf : fenced_json_group info_text with
  | some g =>
    show (match jparse g with
          | some j => j
          | none => default_key_info) = default_key_info
    rw [h2 g hf]
  | none =>
    cases hb : brace_group info_text with
    | some g =>
      show (match jparse g with
            | some j => j
            | none => default_key_info) = default_key_info
      rw [h3 g hb]
    | none => rfl

/-- C6 witness: a plain prose refusal with no recoverable JSON falls all
the way to the empty four-key default. -/
theorem extract_key_information_default_amended_witness :
    mini_json_parse "I could not produce structured output" = none ∧
    fenced_json_group "I could not produce structured output" = none ∧
    brace_group "I could not produce structured output" = none ∧
    extract_key_information mini_json_parse "I could not produce structured output"
      = default_key_info :=
  ⟨rfl, rfl, rfl,
   extract_key_information_default_amended mini_json_parse
     "I could not produce structured output" rfl
     (fun g hg => nomatch hg) (fun g hg => nomatch hg)⟩

/-! Helper lemmas about the tag table. -/

theorem get_memory_tags_mem (pg : PgState) (memory_id t : String) :
    t ∈ get_memory_tags pg memory_id ↔ (memory_id, t) ∈ pg.memory_tags := by
  unfold get_memory_tags
  constructor
  · intro h
    obtain ⟨p, hp, hpt⟩ := List.mem_map.mp h
    obtain ⟨hpm, hp1⟩ := List.mem_filter.mp hp
    obtain ⟨p1, p2⟩ := p
    have hp1' : p1 = memory_id := by simpa using hp1
    simp only at hpt
    rw [← hp1', ← hpt]
    exact hpm
  · intro h
    exact List.mem_map.mpr ⟨(memory_id, t), List.mem_filter.mpr ⟨h, by simp⟩, rfl⟩

theorem remove_memory_tag_fst (pg : PgState) (memory_id tag : String) :
    (remove_memory_tag pg memory_id tag).1
      = { pg with memory_tags := pg.memory_tags.erase (memory_id, tag) } := by
  unfold remove_memory_tag
  by_cases h : pg.memory_tags.contains (memory_id, tag)
  · rw [if_pos h]
  · rw [if_neg h]
    have h2 : pg.memory_tags.erase (memory_id, tag) = pg.memory_tags :=
      List.erase_of_not_mem (by simpa using h)
    rw [h2]

theorem add_memory_tag_memories (pg : PgState) (memory_id tag : String) :
    (add_memory_tag pg memory_id tag).memories = pg.memories := by
  unfold add_memory_tag
  split <;> rfl

theorem add_memory_tag_mem (pg : PgState) (memory_id tag : String)
    (p : String × String) :
    p ∈ (add_memory_tag pg memory_id tag).memory_tags ↔
      p ∈ pg.memory_tags ∨ p = (memory_id, tag) := by
  unfold add_memory_tag
  by_cases h : pg.memory_tags.contains (memory_id, tag)
  · rw [if_pos h]
    constructor
    · exact Or.inl
    · rintro (hp | rfl)
      · exact hp
      · simpa using h
  · rw [if_neg h]
    simp

theorem remove_stale_tags_spec (memory_id : String) (ts : List String) :
    ∀ (ex : List String) (pg : PgState), pg.memory_tags.Nodup →
      ((ex.foldl (fun acc tag =>
          if ts.contains tag then acc else (remove_memory_tag acc memory_id tag).1)
          pg).memories = pg.memories) ∧
      ((ex.foldl (fun acc tag =>
          if ts.contains tag then acc else (remove_memory_tag acc memory_id tag).1)
          pg).memory_tags.Nodup) ∧
      ∀ p : String × String,
        p ∈ (ex.foldl (fun acc tag =>
            if ts.contains tag then acc else (remove_memory_tag acc memory_id tag).1)
            pg).memory_tags ↔
          p ∈ pg.memory_tags ∧ ¬(p.1 = memory_id ∧ p.2 ∈ ex ∧ p.2 ∉ ts) := by
  intro ex
  induction ex with
  | nil =>
    intro pg h
    refine ⟨rfl, h, ?_⟩
    intro p
    simp
  | cons a ex ih =>
    intro pg h
    simp only [List.foldl_cons]
    by_cases ha : ts.contains a
    · rw [if_pos ha]
      obtain ⟨h1, h2, h3⟩ := ih pg h
      refine ⟨h1, h2, ?_⟩
      intro p
      rw [h3 p]
      have haa : a ∈ ts := by simpa using ha
      simp only [List.mem_cons]
      constructor
      · rintro ⟨hp, hn⟩
        refine ⟨hp, ?_⟩
        rintro ⟨e1, e2 | e2, e3⟩
        · exact e3 (e2 ▸ haa)
        · exact hn ⟨e1, e2, e3⟩
      · rintro ⟨hp, hn⟩
        exact ⟨hp, fun he => hn ⟨he.1, Or.inr he.2.1, he.2.2⟩⟩
    · rw [if_neg ha]
      rw [remove_memory_tag_fst]
      have hnd2 : (pg.memory_tags.erase (memory_id, a)).Nodup := h.erase _
      obtain ⟨h1, h2, h3⟩ := ih { pg with memory_tags := pg.memory_tags.erase (memory_id, a) } hnd2
      refine ⟨h1, h2, ?_⟩
      intro p
      rw [h3 p]
      have herase : p ∈ ({ pg with
            memory_tags := pg.memory_tags.erase (memory_id, a) } : PgState).memory_tags ↔
          p ≠ (memory_id, a) ∧ p ∈ pg.memory_tags := List.Nodup.mem_erase_iff h
      have haa : a ∉ ts := by simpa using ha
      rw [herase]
      obtain ⟨p1, p2⟩ := p
      constructor
      · rintro ⟨⟨hne, hp⟩, hn⟩
        refine ⟨hp, ?_⟩
        rintro ⟨e1, e2, e3⟩
        rcases List.mem_cons.mp e2 with e2a | e2b
        · exact hne (by rw [show p1 = memory_id from e1, show p2 = a from e2a])
        · exact hn ⟨e1, e2b, e3⟩
      · rintro ⟨hp, hn⟩
        refine ⟨⟨?_, hp⟩, ?_⟩
        · intro heq
          have e1 : p1 = memory_id := congrArg Prod.fst heq
          have e2 : p2 = a := congrArg Prod.snd heq
          exact hn ⟨e1, by rw [show p2 = a from e2]; exact List.mem_cons_self _ _,
            by rw [show p2 = a from e2]; exact haa⟩
        · rintro ⟨e1, e2, e3⟩
          exact hn ⟨e1, List.mem_cons_of_mem _ e2, e3⟩

theorem add_new_tags_spec (memory_id : String) (ex : List String) :
    ∀ (ts : List String) (pg : PgState),
      ((ts.foldl (fun acc tag =>
          if ex.contains tag then acc else add_memory_tag acc memory_id tag)
          pg).memories = pg.memories) ∧
      ∀ p : String × String,
        p ∈ (ts.foldl (fun acc tag =>
            if ex.contains tag then acc else add_memory_tag acc memory_id tag)
            pg).memory_tags ↔
          p ∈ pg.memory_tags ∨ (p.1 = memory_id ∧ p.2 ∈ ts ∧ p.2 ∉ ex) := by
  intro ts
  induction ts with
  | nil =>
    intro pg
    refine ⟨rfl, ?_⟩
    intro p
    simp
  | cons a ts ih =>
    intro pg
    simp only [List.foldl_cons]
    by_cases ha : ex.contains a
    · rw [if_pos ha]
      obtain ⟨h1, h2⟩ := ih pg
      have haa : a ∈ ex := by simpa using ha
      refine ⟨h1, ?_⟩
      intro p
      rw [h2 p]
      simp only [List.mem_cons]
      constructor
      · rintro (hp | ⟨e1, e2, e3⟩)
        · exact Or.inl hp
        · exact Or.inr ⟨e1, Or.inr e2, e3⟩
      · rintro (hp | ⟨e1, e2 | e2, e3⟩)
        · exact Or.inl hp
        · exact absurd (e2 ▸ haa) e3
        · exact Or.inr ⟨e1, e2, e3⟩
    · rw [if_neg ha]
      obtain ⟨h1, h2⟩ := ih (add_memory_tag pg memory_id a)
      have haa : a ∉ ex := by simpa using ha
      refine ⟨by rw [h1, add_memory_tag_memories], ?_⟩
      intro p
      rw [h2 p, add_memory_tag_mem]
      obtain ⟨p1, p2⟩ := p
      simp only [Prod.mk.injEq, List.mem_cons]
      constructor
      · rintro ((hp | ⟨e1, e2⟩) | ⟨e1, e2, e3⟩)
        · exact Or.inl hp
        · exact Or.inr ⟨e1, Or.inl e2, e2 ▸ haa⟩
        · exact Or.inr ⟨e1, Or.inr e2, e3⟩
      · rintro (hp | ⟨e1, e2 | e2, e3⟩)
        · exact Or.inl (Or.inl hp)
        · exact Or.inl (Or.inr ⟨e1, e2⟩)
        · exact Or.inr ⟨e1, e2, e3⟩

theorem pg_update_memory_found (pg : PgState) (memory_id : String)
    (content : Option String) (importance : Option ℚ) (category : Option String)
    (metadata : Option (List (String × JVal))) (is_active : Option Bool)
    (embedding_id : Option String) (now : Nat) (m : MemRec)
    (hm : get_memory_by_id pg memory_id = some m) :
    pg_update_memory pg memory_id content importance category metadata
        is_active embedding_id now =
      ({ pg with memories := pg.memories.map (fun x =>
          if x.id == memory_id then
            apply_memory_updates x content importance category metadata
              is_active embedding_id now
          else x) }, true) := by
  simp [pg_update_memory, hm]

theorem update_tags_combined (memory_id : String) (ts : List String)
    (pg : PgState) (hnd : pg.memory_tags.Nodup) :
    ∀ t, t ∈ get_memory_tags
        (ts.foldl (fun acc tag =>
            if (get_memory_tags pg memory_id).contains tag then acc
            else add_memory_tag acc memory_id tag)
          ((get_memory_tags pg memory_id).foldl (fun acc tag =>
            if ts.contains tag then acc else (remove_memory_tag acc memory_id tag).1)
            pg))
        memory_id ↔ t ∈ ts := by
  intro t
  obtain ⟨hrm_mem, hrm_nd, hrm⟩ :=
    remove_stale_tags_spec memory_id ts (get_memory_tags pg memory_id) pg hnd
  obtain ⟨hadd_mem, hadd⟩ :=
    add_new_tags_spec memory_id (get_memory_tags pg memory_id) ts
      ((get_memory_tags pg memory_id).foldl (fun acc tag =>
        if ts.contains tag then acc else (remove_memory_tag acc memory_id tag).1) pg)
  rw [get_memory_tags_mem, hadd (memory_id, t), hrm (memory_id, t)]
  simp only
  constructor
  · rintro (⟨hp, hn⟩ | ⟨_, h2, _⟩)
    · by_cases hts : t ∈ ts
      · exact hts
      · exact absurd ⟨by trivial, (get_memory_tags_mem pg memory_id t).mpr hp, hts⟩ hn
    · exact h2
  · intro hts
    by_cases hex : t ∈ get_memory_tags pg memory_id
    · exact Or.inl ⟨(get_memory_tags_mem _ _ _).mp hex, fun he => he.2.2 hts⟩
    · exact Or.inr ⟨by trivial, hts, hex⟩

theorem update_tags_combined_memories (memory_id : String) (ts : List String)
    (pg : PgState) (hnd : pg.memory_tags.Nodup) :
    (ts.foldl (fun acc tag =>
        if (get_memory_tags pg memory_id).contains tag then acc
        else add_memory_tag acc memory_id tag)
      ((get_memory_tags pg memory_id).foldl (fun acc tag =>
        if ts.contains tag then acc else (remove_memory_tag acc memory_id tag).1)
        pg)).memories = pg.memories := by
  obtain ⟨hrm_mem, hrm_nd, _⟩ :=
    remove_stale_tags_spec memory_id ts (get_memory_tags pg memory_id) pg hnd
  obtain ⟨hadd_mem, _⟩ :=
    add_new_tags_spec memory_id (get_memory_tags pg memory_id) ts
      ((get_memory_tags pg memory_id).foldl (fun acc tag =>
        if ts.contains tag then acc else (remove_memory_tag acc memory_id tag).1) pg)
  rw [hadd_mem, hrm_mem]

/-- C7: updating the tags of an existing memory computes a set-difference
against the stored tags — after update(memory_id, tags := ts) the stored
tag set is exactly the set of ts (stale tags removed, missing tags added,
common tags untouched), the call reports success, and every successful
update (whatever combination of fields was supplied) stamps the matched
row's updated_at with the update instant. -/
theorem update_memory_tags_set_diff
    (vs_update : Option String → Option String → Option (List (String × JVal)) →
      VectorState → VectorState)
    (s : SysState) (memory_id : String) (m : MemRec) (ts : List String) (now : Nat)
    (hm : get_memory_by_id s.pg memory_id = some m)
    (hnd : s.pg.memory_tags.Nodup) :
    ((long_update_memory vs_update s memory_id none none none none none
        (some ts) now).2 = true) ∧
    (∀ t, t ∈ get_memory_tags
        (long_update_memory vs_update s memory_id none none none none none
          (some ts) now).1.pg memory_id ↔ t ∈ ts) ∧
    (∀ (content : Option String) (importance : Option ℚ) (category : Option String)
        (metadata : Option (List (String × JVal))) (is_active : Option Bool)
        (tags2 : Option (List String)),
      ((long_update_memory vs_update s memory_id content importance category
          metadata is_active tags2 now).2 = true) ∧
      ∀ r ∈ (long_update_memory vs_update s memory_id content importance category
          metadata is_active tags2 now).1.pg.memories,
        r.id = memory_id → r.updated_at = now) := by
  have hfound : ∀ (content : Option String) (importance : Option ℚ)
      (category : Option String) (metadata : Option (List (String × JVal)))
      (is_active : Option Bool),
      pg_update_memory s.pg memory_id content importance category metadata
          is_active none now =
        ({ s.pg with memories := s.pg.memories.map (fun x =>
            if x.id == memory_id then
              apply_memory_updates x content importance category metadata
                is_active none now
            else x) }, true) :=
    fun content importance category metadata is_active =>
      pg_update_memory_found s.pg memory_id content importance category metadata
        is_active none now m hm
  have hnd1 : ∀ (content : Option String) (importance : Option ℚ)
      (category : Option String) (metadata : Option (List (String × JVal)))
      (is_active : Option Bool),
      (pg_update_memory s.pg memory_id content importance category metadata
        is_active none now).1.memory_tags.Nodup := by
    intro content importance category metadata is_active
    rw [hfound]
    exact hnd
  refine ⟨?_, ?_, ?_⟩
  · simp only [long_update_memory, hm]
    rw [hfound]
  · intro t
    simp only [long_update_memory, hm]
    exact update_tags_combined memory_id ts
      (pg_update_memory s.pg memory_id none none none none none none now).1
      (hnd1 none none none none none) t
  · intro content importance category metadata is_active tags2
    constructor
    · simp only [long_update_memory, hm]
      rw [hfound]
    · intro r hr hid
      simp only [long_update_memory, hm] at hr
      have hr2 : r ∈ (pg_update_memory s.pg memory_id content importance category
          metadata is_active none now).1.memories := by
        cases tags2 with
        | none => exact hr
        | some ts2 =>
          rw [update_tags_combined_memories memory_id ts2
            (pg_update_memory s.pg memory_id content importance category
              metadata is_active none now).1
            (hnd1 content importance category metadata is_active)] at hr
          exact hr
      rw [hfound] at hr2
      obtain ⟨x, hx, hxr⟩ := List.mem_map.mp hr2
      by_cases hxid : (x.id == memory_id) = true
      · rw [if_pos hxid] at hxr
        rw [← hxr]
        rfl
      · rw [if_neg hxid] at hxr
        rw [← hxr] at hid
        exact absurd (by simp [hid]) hxid

/-- C7 witness: updating tags to [b, c] on the record stored with tags
{a, b} — afterwards a tag is stored iff it is b or c. -/
theorem update_memory_tags_set_diff_witness :
    get_memory_by_id sample_state.pg "m1" = some mem_m1 ∧
    sample_state.pg.memory_tags.Nodup ∧
    (∀ t, t ∈ get_memory_tags
        (long_update_memory noop_vs_update sample_state "m1" none none none none none
          (some ["b", "c"]) 5).1.pg "m1" ↔ t ∈ ["b", "c"]) :=
  ⟨rfl, by decide,
   (update_memory_tags_set_diff noop_vs_update sample_state "m1" mem_m1
     ["b", "c"] 5 rfl (by decide)).2.1⟩

/-! Helper lemmas about search. -/

theorem get_user_memories_active_owner (pg : PgState) (user_id : String)
    (m : MemRec) (h : m ∈ get_user_memories pg user_id none true) :
    m ∈ pg.memories ∧ m.user_id = user_id ∧ m.is_active = true := by
  have h2 : m ∈ ((pg.memories.filter (fun x => x.user_id == user_id)).filter
      (fun x => x.is_active)) :=
    (List.perm_insertionSort memory_order _).mem_iff.mp h
  have h3 := List.mem_filter.mp h2
  have h4 := List.mem_filter.mp h3.1
  exact ⟨h4.1, by simpa using h4.2, h3.2⟩

theorem search_fold_mem (s : SysState) (user_id : String) :
    ∀ (vrs : List VecResult) (acc : List SearchResult) (r : SearchResult),
      r ∈ vrs.foldl (fun acc vr =>
        match (get_user_memories s.pg user_id none true).find?
            (fun mem => mem.embedding_id == some vr.id) with
        | some memory =>
          if memory.is_active then acc ++ [search_result_of s memory vr] else acc
        | none => acc) acc →
      r ∈ acc ∨ ∃ vr ∈ vrs, ∃ memory,
        memory ∈ get_user_memories s.pg user_id none true ∧
        memory.embedding_id = some vr.id ∧
        r = search_result_of s memory vr := by
  intro vrs
  induction vrs with
  | nil =>
    intro acc r hr
    exact Or.inl (by simpa using hr)
  | cons vr vrs ih =>
    intro acc r hr
    rw [List.foldl_cons] at hr
    rcases ih _ r hr with h | ⟨vr2, hvr2, memory, hmem, hemb, hrr⟩
    · cases hfind : (get_user_memories s.pg user_id none true).find?
          (fun mem => mem.embedding_id == some vr.id) with
      | none =>
        rw [hfind] at h
        exact Or.inl h
      | some memory =>
        rw [hfind] at h
        have h2 : r ∈ (if memory.is_active then
            acc ++ [search_result_of s memory vr] else acc) := h
        by_cases hact : memory.is_active
        · rw [if_pos hact] at h2
          rcases List.mem_append.mp h2 with h3 | h3
          · exact Or.inl h3
          · refine Or.inr ⟨vr, List.mem_cons_self _ _, memory,
              List.mem_of_find?_eq_some hfind, ?_, List.mem_singleton.mp h3⟩
            simpa using List.find?_some hfind
        · rw [if_neg hact] at h2
          exact Or.inl h2
    · exact Or.inr ⟨vr2, List.mem_cons_of_mem _ hvr2, memory, hmem, hemb, hrr⟩

theorem long_search_memories_mem (s : SysState) (user_id : String)
    (vector_results : List VecResult) (r : SearchResult)
    (hr : r ∈ long_search_memories s user_id vector_results) :
    ∃ vr ∈ vector_results, ∃ memory,
      memory ∈ get_user_memories s.pg user_id none true ∧
      memory.embedding_id = some vr.id ∧
      r = search_result_of s memory vr := by
  have hr2 := (List.perm_insertionSort
    (fun a b : SearchResult => b.relevance ≤ a.relevance) _).mem_iff.mp hr
  rcases search_fold_mem s user_id vector_results [] r hr2 with h | h
  · simp at h
  · exact h

/-- C10 (implicit): every record returned by search_memories belongs to
the requested owner — each candidate from the semantic index is matched
only against the owner's own active memory list, so a candidate id that
belongs to another owner's memory never produces a result. -/
theorem search_results_owned_by_requested_user (s : SysState) (user_id : String)
    (vector_results : List VecResult) :
    ∀ r ∈ long_search_memories s user_id vector_results, r.user_id = user_id := by
  intro r hr
  obtain ⟨vr, _, memory, hmem, _, hrr⟩ :=
    long_search_memories_mem s user_id vector_results r hr
  rw [hrr]
  exact (get_user_memories_active_owner s.pg user_id memory hmem).2.1

/-- C10 witness: the single candidate e1 resolves to the stored memory m1
and the returned record is owned by u1. -/
theorem search_results_owned_by_requested_user_witness :
    (search_result_of sample_state mem_m1 (VecResult.mk "e1" "likes apples" none)) ∈
      long_search_memories sample_state "u1" [VecResult.mk "e1" "likes apples" none] ∧
    (search_result_of sample_state mem_m1 (VecResult.mk "e1" "likes apples" none)).user_id
      = "u1" :=
  ⟨by exact List.mem_singleton.mpr rfl,
   search_results_owned_by_requested_user sample_state "u1"
     [VecResult.mk "e1" "likes apples" none]
     (search_result_of sample_state mem_m1 (VecResult.mk "e1" "likes apples" none))
     (by exact List.mem_singleton.mpr rfl)⟩

/-- C3 (amended): search results are sorted by relevance descending
(Python's stable sort, so ties keep candidate order — no importance or
updatedAt tie-break), and each result's relevance is computed from its
candidate's distance as the code does: 1 − d for a reported nonzero
distance d (no clamping), and 1 when the distance is missing or zero. -/
theorem search_results_relevance_and_order (s : SysState) (user_id : String)
    (vector_results : List VecResult) :
    List.Pairwise (fun a b : SearchResult => b.relevance ≤ a.relevance)
      (long_search_memories s user_id vector_results) ∧
    ∀ r ∈ long_search_memories s user_id vector_results,
      ∃ vr ∈ vector_results,
        r.embedding_id = some vr.id ∧
        r.relevance = result_relevance vr.distance ∧
        (vr.distance = none → r.relevance = 1) ∧
        (∀ d : ℚ, vr.distance = some d → d ≠ 0 → r.relevance = 1 - d) ∧
        (∀ d : ℚ, vr.distance = some d → d = 0 → r.relevance = 1) := by
  constructor
  · haveI ht : IsTotal SearchResult (fun a b => b.relevance ≤ a.relevance) :=
      ⟨fun a b => le_total b.relevance a.relevance⟩
    haveI htr : IsTrans SearchResult (fun a b => b.relevance ≤ a.relevance) :=
      ⟨fun a b c hab hbc => le_trans hbc hab⟩
    exact List.sorted_insertionSort _ _
  · intro r hr
    obtain ⟨vr, hvr, memory, hmem, hemb, hrr⟩ :=
      long_search_memories_mem s user_id vector_results r hr
    have hrel : r.relevance = result_relevance vr.distance := by
      rw [hrr]
      rfl
    refine ⟨vr, hvr, by rw [hrr]; exact hemb, hrel, ?_, ?_, ?_⟩
    · intro hd
      rw [hrel, hd]
      norm_num [result_relevance]
    · intro d hd hdz
      rw [hrel, hd]
      simp [result_relevance, hdz]
    · intro d hd hdz
      rw [hrel, hd, hdz]
      norm_num [result_relevance]

/-- C3 (counterexample): at a concrete state and candidate list the code
returns relevance 1 for a candidate with no distance (the claim demands
0), an unclamped relevance −1 for distance 2 (the claim demands values in
[0,1]), and orders the tied results A before B even though B's importance
is strictly higher (the claim demands an importance tie-break). -/
theorem search_relevance_claim_false_at_concrete_input :
    (long_search_memories c3_state "u1" c3_vrs).map
        (fun r => (r.id, r.importance, r.relevance))
      = [("A", (0 : ℚ), (1 : ℚ)), ("B", (1 : ℚ), (1 : ℚ)), ("C", (0 : ℚ), (-1 : ℚ))] ∧
    ((1 : ℚ) ≠ 0) ∧ ((-1 : ℚ) < 0) ∧ ((0 : ℚ) < 1) := by
  refine ⟨?_, by norm_num, by norm_num, by norm_num⟩
  have hfold : long_search_memories c3_state "u1" c3_vrs
      = List.insertionSort (fun a b : SearchResult => b.relevance ≤ a.relevance)
        [search_result_of c3_state mem_a (VecResult.mk "eA" "a" none),
         search_result_of c3_state mem_b (VecResult.mk "eB" "b" none),
         search_result_of c3_state mem_c (VecResult.mk "eC" "c" (some 2))] := rfl
  rw [hfold]
  norm_num [List.insertionSort, List.orderedInsert, search_result_of,
    result_relevance, mem_a, mem_b, mem_c]

/-! Helper lemmas about delete. -/

theorem find_id_unique (l : List MemRec) (memory_id : String) (m : MemRec)
    (hf : l.find? (fun x => x.id == memory_id) = some m)
    (hnd : (l.map MemRec.id).Nodup) :
    ∀ r ∈ l, r.id = memory_id → r = m := by
  intro r hr hrid
  have hm_mem := List.mem_of_find?_eq_some hf
  have hm_id : m.id = memory_id := by simpa using List.find?_some hf
  exact List.inj_on_of_nodup_map hnd hr hm_mem (by rw [hrid, hm_id])

theorem pg_delete_soft_found (pg : PgState) (memory_id : String) (now : Nat)
    (m : MemRec) (hm : get_memory_by_id pg memory_id = some m) :
    pg_delete_memory pg memory_id true now =
      ({ pg with memories := pg.memories.map (fun x =>
          if x.id == memory_id then { x with is_active := false, updated_at := now }
          else x) }, true) := by
  simp [pg_delete_memory, hm]

theorem pg_delete_hard_found (pg : PgState) (memory_id : String) (now : Nat)
    (m : MemRec) (hm : get_memory_by_id pg memory_id = some m) :
    pg_delete_memory pg memory_id false now =
      ({ pg with memories := pg.memories.filter (fun x => x.id != memory_id) }, true) := by
  simp [pg_delete_memory, hm]

theorem long_delete_soft_eq (s : SysState) (memory_id : String) (now : Nat)
    (m : MemRec) (hm : get_memory_by_id s.pg memory_id = some m) :
    long_delete_memory s memory_id true now =
      ({ pg := ({ memories := s.pg.memories.map (fun x =>
                      (if x.id == memory_id then
                        { x with is_active := false, updated_at := now }
                       else x)),
                  memory_tags := s.pg.memory_tags } : PgState),
         vector := s.vector,
         cached_users := s.cached_users.filter (fun u => u != m.user_id) }, true) := by
  simp only [long_delete_memory, hm, Bool.not_true, Bool.false_eq_true, if_false]
  rw [pg_delete_soft_found s.pg memory_id now m hm]

theorem long_delete_hard_eq (s : SysState) (memory_id : String) (now : Nat)
    (m : MemRec) (hm : get_memory_by_id s.pg memory_id = some m) :
    (long_delete_memory s memory_id false now).1.pg.memories
      = s.pg.memories.filter (fun x => x.id != memory_id) ∧
    (long_delete_memory s memory_id false now).2 = true := by
  simp only [long_delete_memory, hm]
  rw [pg_delete_hard_found s.pg memory_id now m hm]
  exact ⟨rfl, rfl⟩

theorem long_delete_not_found (s : SysState) (memory_id : String) (soft : Bool)
    (now : Nat) (h : get_memory_by_id s.pg memory_id = none) :
    long_delete_memory s memory_id soft now = (s, false) := by
  simp only [long_delete_memory, h]

/-- C4 (counterexample): the record dict LongTermMemory.get_memory builds
carries no is_active or isActive key at all, so a soft-deleted record is
returned by get(id) but not "with isActive=false" as the claim states. -/
theorem get_memory_view_omits_is_active :
    mem_d.is_active = false ∧
    (long_get_memory c4_state "D").isSome = true ∧
    ((long_get_memory c4_state "D").getD []).lookup "is_active" = none ∧
    ((long_get_memory c4_state "D").getD []).lookup "isActive" = none :=
  ⟨rfl, rfl, rfl, rfl⟩

/-- C4 (amended): delete is idempotent in the stated sense — a soft
delete on an already-inactive record reports success and changes nothing
in the durable state except that record's updated_at (the owner's cache
entry is dropped, tags and the index are untouched); the record is still
returned by get(id) (without an isActive field, see the counterexample)
but excluded from every search result; a subsequent hard delete succeeds,
after which get(id) is absent and a repeated hard delete reports
failure. -/
theorem delete_memory_idempotent_amended (s : SysState) (memory_id : String)
    (m : MemRec) (now now2 now3 : Nat)
    (hm : get_memory_by_id s.pg memory_id = some m)
    (hin : m.is_active = false)
    (hnd : (s.pg.memories.map MemRec.id).Nodup) :
    ((long_delete_memory s memory_id true now).2 = true) ∧
    ((long_delete_memory s memory_id true now).1.pg.memories
      = s.pg.memories.map (fun r =>
          if r.id == memory_id then { r with updated_at := now } else r)) ∧
    ((long_delete_memory s memory_id true now).1.pg.memory_tags = s.pg.memory_tags) ∧
    ((long_delete_memory s memory_id true now).1.vector = s.vector) ∧
    ((long_delete_memory s memory_id true now).1.cached_users
      = s.cached_users.filter (fun u => u != m.user_id)) ∧
    ((long_get_memory (long_delete_memory s memory_id true now).1 memory_id).isSome
      = true) ∧
    (∀ (user_id : String) (vrs : List VecResult),
      ∀ r ∈ long_search_memories (long_delete_memory s memory_id true now).1 user_id vrs,
        r.id ≠ memory_id) ∧
    ((long_delete_memory (long_delete_memory s memory_id true now).1 memory_id
        false now2).2 = true) ∧
    (long_get_memory
        (long_delete_memory (long_delete_memory s memory_id true now).1 memory_id
          false now2).1 memory_id = none) ∧
    ((long_delete_memory
        (long_delete_memory (long_delete_memory s memory_id true now).1 memory_id
          false now2).1 memory_id false now3).2 = false) := by
  have heq1 := long_delete_soft_eq s memory_id now m hm
  have hm_mem : m ∈ s.pg.memories := List.mem_of_find?_eq_some hm
  have hm_id : m.id = memory_id := by simpa using List.find?_some hm
  have hmap_mem : ({ m with is_active := false, updated_at := now } : MemRec) ∈
      (long_delete_memory s memory_id true now).1.pg.memories := by
    rw [heq1]
    refine List.mem_map.mpr ⟨m, hm_mem, ?_⟩
    rw [if_pos (by simp [hm_id])]
  have hfind2 : (get_memory_by_id
      (long_delete_memory s memory_id true now).1.pg memory_id).isSome = true := by
    apply List.find?_isSome.mpr
    exact ⟨_, hmap_mem, by simp [hm_id]⟩
  obtain ⟨m2, hm2⟩ := Option.isSome_iff_exists.mp hfind2
  have hhard := long_delete_hard_eq
    (long_delete_memory s memory_id true now).1 memory_id now2 m2 hm2
  have hfind3 : get_memory_by_id
      ((long_delete_memory (long_delete_memory s memory_id true now).1 memory_id
        false now2).1).pg memory_id = none := by
    unfold get_memory_by_id
    rw [hhard.1]
    apply List.find?_eq_none.mpr
    intro x hx
    have := List.of_mem_filter hx
    simpa using this
  refine ⟨by rw [heq1], ?_, by rw [heq1], by rw [heq1], by rw [heq1], ?_, ?_, ?_, ?_, ?_⟩
  · rw [heq1]
    apply List.map_congr_left
    intro x hx
    by_cases hxid : (x.id == memory_id) = true
    · rw [if_pos hxid, if_pos hxid]
      have hxm : x = m := find_id_unique s.pg.memories memory_id m hm hnd x hx
        (by simpa using hxid)
      subst hxm
      rw [← hin]
    · rw [if_neg hxid, if_neg hxid]
  · obtain ⟨mm, hmm⟩ := Option.isSome_iff_exists.mp hfind2
    simp [long_get_memory, hmm]
  · intro user_id vrs r hr hrid
    obtain ⟨vr, _, memory, hmem, _, hrr⟩ :=
      long_search_memories_mem (long_delete_memory s memory_id true now).1
        user_id vrs r hr
    have hacts := get_user_memories_active_owner
      (long_delete_memory s memory_id true now).1.pg user_id memory hmem
    have hmemories := hacts.1
    rw [heq1] at hmemories
    obtain ⟨x, hx, hxm⟩ := List.mem_map.mp hmemories
    have hmid : memory.id = memory_id := by
      rw [hrr] at hrid
      exact hrid
    by_cases hxid : (x.id == memory_id) = true
    · rw [if_pos hxid] at hxm
      have : memory.is_active = false := by rw [← hxm]
      rw [hacts.2.2] at this
      exact Bool.true_eq_false ▸ this  -- contradiction true = false
    · rw [if_neg hxid] at hxm
      rw [← hxm] at hmid
      exact hxid (by simp [hmid])
  · exact hhard.2
  · simp only [long_get_memory]
    rw [hfind3]
  · rw [long_delete_not_found _ memory_id false now3 hfind3]

/-- C4 witness: the amended delete-idempotence theorem instantiated on
the state holding only the soft-deleted memory D. -/
theorem delete_memory_idempotent_amended_witness :
    get_memory_by_id c4_state.pg "D" = some mem_d ∧
    mem_d.is_active = false ∧
    (c4_state.pg.memories.map MemRec.id).Nodup ∧
    (long_delete_memory c4_state "D" true 1).2 = true ∧
    (long_delete_memory (long_delete_memory c4_state "D" true 1).1 "D" false 2).2
      = true ∧
    long_get_memory
      (long_delete_memory (long_delete_memory c4_state "D" true 1).1 "D" false 2).1
      "D" = none ∧
    (long_delete_memory
      (long_delete_memory (long_delete_memory c4_state "D" true 1).1 "D" false 2).1
      "D" false 3).2 = false :=
  ⟨rfl, rfl, by decide,
   (delete_memory_idempotent_amended c4_state "D" mem_d 1 2 3 rfl rfl (by decide)).1,
   (delete_memory_idempotent_amended c4_state "D" mem_d 1 2 3 rfl rfl
     (by decide)).2.2.2.2.2.2.2.1,
   (delete_memory_idempotent_amended c4_state "D" mem_d 1 2 3 rfl rfl
     (by decide)).2.2.2.2.2.2.2.2.1,
   (delete_memory_idempotent_amended c4_state "D" mem_d 1 2 3 rfl rfl
     (by decide)).2.2.2.2.2.2.2.2.2⟩

end BestMemoryAI

